import Mathlib

set_option maxRecDepth 20000

/-!
Shallow embedding of `scripts/find-console-statements.py`, a scanner that
walks a TypeScript source tree, finds `console.*` call statements outside
comments, and prints a per-file report.

Python strings are modelled as `List Char`; a file's content is its list of
physical lines (as produced by `readlines`, i.e. usually ending in a newline
character); a fallible file read is `Except` carrying the error text.
Whitespace is the ASCII whitespace set used by Python's `str.strip`,
`str.rstrip` and the regex class `\s`.
-/

namespace ConsoleScan

/-- ASCII whitespace, as in Python's `str.strip`/`str.rstrip` and regex `\s`. -/
def pySpace (c : Char) : Bool :=
  c == ' ' || c == '\t' || c == '\n' || c == '\r' || c == '\x0b' || c == '\x0c'

/-- Python `str.rstrip()`: remove trailing whitespace. -/
def pyRstrip (s : List Char) : List Char :=
  (s.reverse.dropWhile pySpace).reverse

/-- Python `str.strip()`: remove leading and trailing whitespace. -/
def pyStrip (s : List Char) : List Char :=
  pyRstrip (s.dropWhile pySpace)

/-- Python substring containment, `pat in s`. -/
def containsSub (pat : List Char) : List Char → Bool
  | [] => pat.isPrefixOf []
  | c :: rest => pat.isPrefixOf (c :: rest) || containsSub pat rest

/-- The method-name alternatives of `CONSOLE_PATTERN`, in source order. -/
def methods : List (List Char) :=
  ["log", "error", "warn", "debug", "info", "clear"].map String.toList

/-- The literal head `console.` of `CONSOLE_PATTERN`. -/
def consoleHead : List Char := "console.".toList

/-- Drop an expected literal from the front of `s`, returning the remainder. -/
def dropPre : List Char → List Char → Option (List Char)
  | [], s => some s
  | _ :: _, [] => none
  | p :: ps, c :: cs => if p = c then dropPre ps cs else none

/-- The regex tail `\s*\(`: optional whitespace then an opening parenthesis. -/
def matchWsParen : List Char → Bool
  | [] => false
  | c :: rest => if c = '(' then true else if pySpace c then matchWsParen rest else false

/-- `CONSOLE_PATTERN` anchored at the start of `s`:
`console\.(log|error|warn|debug|info|clear)\s*\(`. -/
def matchConsoleAt (s : List Char) : Bool :=
  match dropPre consoleHead s with
  | none => false
  | some r =>
    methods.any fun m =>
      match dropPre m r with
      | none => false
      | some r2 => matchWsParen r2

/-- `CONSOLE_PATTERN.search(line)`: the pattern fires somewhere in the line. -/
def console_pattern_search : List Char → Bool
  | [] => false
  | c :: rest => matchConsoleAt (c :: rest) || console_pattern_search rest

/-- `is_comment_line` from the source: the stripped line starts with `//`,
`*`, `/**` or `*/`. -/
def is_comment_line (line : List Char) : Bool :=
  let stripped := pyStrip line
  ("//".toList).isPrefixOf stripped || ("*".toList).isPrefixOf stripped ||
    ("/**".toList).isPrefixOf stripped || ("*/".toList).isPrefixOf stripped

/-- The block-comment close marker `*/`. -/
def closeTok : List Char := "*/".toList

/-- A line whose stripped text begins with the doc-comment opener `/**`. -/
def isOpenerLine (line : List Char) : Bool :=
  ("/**".toList).isPrefixOf (pyStrip line)

/-- The `elif` condition of the backward scan of `is_in_jsdoc`: a stripped
line that is non-empty and starts with neither `*` nor `//`. -/
def isStopperLine (line : List Char) : Bool :=
  let s := pyStrip line
  !(("*".toList).isPrefixOf s) && !s.isEmpty && !(("//".toList).isPrefixOf s)

/-- The backward loop of `is_in_jsdoc`: with fuel `m` it scans indices
`m-1, m-2, ..., 0`, exactly as `for i in range(line_num - 1, -1, -1)`.
On finding an opener at `i` it returns the result of the inner forward loop
`for j in range(i, line_num)` looking for `*/`; on a stopper it returns
`False`; otherwise it continues downward. -/
def is_in_jsdoc_go (lines : List (List Char)) (line_num : Nat) : Nat → Bool
  | 0 => false
  | i + 1 =>
    if isOpenerLine (lines.getD i []) then
      !((List.range' i (line_num - i)).any fun j => containsSub closeTok (lines.getD j []))
    else if isStopperLine (lines.getD i []) then
      false
    else
      is_in_jsdoc_go lines line_num i

/-- `is_in_jsdoc(lines, line_num)` from the source (`line_num` 0-based). -/
def is_in_jsdoc (lines : List (List Char)) (line_num : Nat) : Bool :=
  is_in_jsdoc_go lines line_num line_num

/-- One iteration of the scan loop of `find_console_statements` at 0-based
index `idx`: skip comment lines, skip JSDoc blocks, else record
`(idx + 1, line.rstrip())` when the pattern fires. -/
def scanStep (lines : List (List Char)) (idx : Nat) : Option (Nat × List Char) :=
  let line := lines.getD idx []
  if is_comment_line line then none
  else if is_in_jsdoc lines idx then none
  else if console_pattern_search line then some (idx + 1, pyRstrip line)
  else none

/-- The match list produced by `find_console_statements` for a file whose
lines were read successfully. -/
def scanLines (lines : List (List Char)) : List (Nat × List Char) :=
  (List.range lines.length).filterMap (scanStep lines)

deriving instance DecidableEq for Except

/-- A discovered target file: its path and the outcome of reading it
(`Except.error` carries the text of the exception). -/
structure FileEntry where
  path : List Char
  content : Except (List Char) (List (List Char))
  deriving DecidableEq

/-- The diagnostic `Error reading {file_path}: {e}`. -/
def errLine (p msg : List Char) : List Char :=
  "Error reading ".toList ++ p ++ ": ".toList ++ msg

/-- `find_console_statements(file_path)`: first component the diagnostics it
prints, second component the returned match list. -/
def find_console_statements (e : FileEntry) :
    List (List Char) × List (Nat × List Char) :=
  match e.content with
  | .error msg => ([errLine e.path msg], [])
  | .ok lines => ([], scanLines lines)

/-- All diagnostics printed while scanning `files` in order. -/
def collectDiags (files : List FileEntry) : List (List Char) :=
  files.flatMap fun e => (find_console_statements e).1

/-- An entry of `all_statements`: a path with its non-empty match list. -/
abbrev ReportEntry := List Char × List (Nat × List Char)

/-- The contribution of one file to `all_statements`: skipped when its match
list is empty. -/
def reportStep (e : FileEntry) : Option ReportEntry :=
  let s := (find_console_statements e).2
  if s.isEmpty then none else some (e.path, s)

/-- `all_statements` as an ordered association list (Python dict insertion
order, with all scanned paths distinct). -/
def collectReport (files : List FileEntry) : List ReportEntry :=
  files.filterMap reportStep

/-- Decimal digits of a number, as printed. -/
def natChars (n : Nat) : List Char := (Nat.repr n).toList

/-- Right-align text in a field of width 4, the format `{:4d}`. -/
def padLeft4 (s : List Char) : List Char :=
  List.replicate (4 - s.length) ' ' ++ s

/-- One printed match entry: `  {line_num:4d}: {line[:100]}`. -/
def entryLine (m : Nat × List Char) : List Char :=
  "  ".toList ++ padLeft4 (natChars m.1) ++ ": ".toList ++ m.2.take 100

/-- The overflow note `  ... and {n - 10} more`. -/
def overflowLine (total : Nat) : List Char :=
  "  ... and ".toList ++ natChars (total - 10) ++ " more".toList

/-- The block printed for one reported file: header line, at most the first
10 match entries, and the overflow note when more than 10 matches exist. -/
def fileBlock (p : List Char) (stmts : List (Nat × List Char)) : List (List Char) :=
  ("\n".toList ++ p ++ " (".toList ++ natChars stmts.length ++ " statements):".toList)
    :: ((stmts.take 10).map entryLine ++
      if 10 < stmts.length then [overflowLine stmts.length] else [])

/-- Lexicographic comparison of paths (character by character). -/
def lexLe : List Char → List Char → Bool
  | [], _ => true
  | _ :: _, [] => false
  | a :: as, b :: bs => if a < b then true else if b < a then false else lexLe as bs

/-- Path order on file entries, used for `sorted(ts_files)`. -/
def pathLeRel (a b : FileEntry) : Prop := lexLe a.path b.path = true

instance : DecidableRel pathLeRel := fun a b =>
  inferInstanceAs (Decidable (lexLe a.path b.path = true))

/-- Descending match-count order on report entries, the sort key `-len(x[1])`
of `sorted(all_statements.items(), ...)`. -/
def countGeRel (a b : ReportEntry) : Prop := b.2.length ≤ a.2.length

instance : DecidableRel countGeRel := fun a b =>
  inferInstanceAs (Decidable (b.2.length ≤ a.2.length))

/-- `sorted(ts_files)`: the discovered files in path order (insertion sort is
stable, matching Python's stable `sorted`). -/
def sortedEntries (files : List FileEntry) : List FileEntry :=
  List.insertionSort pathLeRel files

/-- The entries of `all_statements` for a run over `files`. -/
def reportEntries (files : List FileEntry) : List ReportEntry :=
  collectReport (sortedEntries files)

/-- The report entries in printed order: stable-sorted by descending count. -/
def reportSorted (files : List FileEntry) : List ReportEntry :=
  List.insertionSort countGeRel (reportEntries files)

/-- Everything `main` prints after the directory check, given the number of
discovered files and the path-sorted file list: the `Scanning` line, the
blank line, the per-file read diagnostics, then either the `Found` summary
and the per-file blocks or the no-matches line. -/
def mainBody (n : Nat) (sorted : List FileEntry) : List (List Char) :=
  let report := collectReport sorted
  (("Scanning ".toList ++ natChars n ++ " TypeScript files...".toList)
      :: ([] : List Char) :: collectDiags sorted)
    ++ (if report.isEmpty then ["No console statements found!".toList]
        else ("Found ".toList ++ natChars ((report.map fun x => x.2.length).sum) ++
              " console statements in ".toList ++ natChars report.length ++
              " files:\n".toList)
          :: (List.insertionSort countGeRel report).flatMap fun x => fileBlock x.1 x.2)

/-- The complete standard output of `main`, as the list of `print` payloads:
`srcExists` models `Path("src").exists()`, `files` the walk of the tree.
`main` always returns normally; printing is its only effect. -/
def mainOutput (srcExists : Bool) (files : List FileEntry) : List (List Char) :=
  if srcExists then mainBody files.length (sortedEntries files)
  else ["Error: src/ directory not found".toList]

/-! ### Claim C1: characterization of the backward JSDoc scan -/

/-- A line the backward scan steps over without stopping: stripped text is
empty, or starts with an asterisk continuation, or with a line comment. -/
def benignLine (line : List Char) : Prop :=
  pyStrip line = [] ∨ ("*".toList).isPrefixOf (pyStrip line) = true ∨
    ("//".toList).isPrefixOf (pyStrip line) = true

/-- The declarative reading of claim C1: some preceding opener line exists,
every line strictly between it and the current line is comment or blank
(hence the scan reaches it first), and no line from the opener up to, but
excluding, the current line contains the close marker. -/
def jsdocSpec (lines : List (List Char)) (cur : Nat) : Prop :=
  ∃ i, i < cur ∧ isOpenerLine (lines.getD i []) = true ∧
    (∀ k, i < k → k < cur → benignLine (lines.getD k [])) ∧
    (∀ j, i ≤ j → j < cur → containsSub closeTok (lines.getD j []) = false)

lemma prefix_shape : ∀ p s : List Char, p.isPrefixOf s = true → ∃ t, s = p ++ t := by
  intro p
  induction p with
  | nil => intro s _; exact ⟨s, rfl⟩
  | cons a as ih =>
    intro s h
    cases s with
    | nil => simp [List.isPrefixOf] at h
    | cons b bs =>
      simp only [List.isPrefixOf, Bool.and_eq_true, beq_iff_eq] at h
      obtain ⟨rfl, h2⟩ := h
      obtain ⟨t, rfl⟩ := ih bs h2
      exact ⟨t, rfl⟩

lemma opener_not_benign {l : List Char} (h : isOpenerLine l = true) :
    ¬ benignLine l := by
  obtain ⟨t, ht⟩ := prefix_shape _ _ h
  intro hb
  rcases hb with h1 | h1 | h1
  · rw [ht] at h1; simp at h1
  · obtain ⟨u, hu⟩ := prefix_shape _ _ h1
    rw [ht] at hu; simp at hu
  · obtain ⟨u, hu⟩ := prefix_shape _ _ h1
    rw [ht] at hu; simp at hu

lemma stopper_not_benign {l : List Char} (h : isStopperLine l = true) :
    ¬ benignLine l := by
  simp only [isStopperLine, Bool.and_eq_true, Bool.not_eq_true'] at h
  obtain ⟨⟨hstar, hempty⟩, hslash⟩ := h
  rintro (h1 | h1 | h1)
  · rw [h1] at hempty; simp at hempty
  · rw [h1] at hstar; cases hstar
  · rw [h1] at hslash; cases hslash

lemma benign_of_not_stopper {l : List Char} (h : isStopperLine l = false) :
    benignLine l := by
  simp only [isStopperLine, Bool.and_eq_false_iff, Bool.not_eq_false'] at h
  rcases h with h1 | h1
  · rcases h1 with h2 | h2
    · exact Or.inr (Or.inl h2)
    · exact Or.inl (List.isEmpty_iff.mp h2)
  · exact Or.inr (Or.inr h1)

lemma close_scan_iff (lines : List (List Char)) {i cur : Nat} (h : i ≤ cur) :
    (!((List.range' i (cur - i)).any fun j => containsSub closeTok (lines.getD j []))) = true ↔
      ∀ j, i ≤ j → j < cur → containsSub closeTok (lines.getD j []) = false := by
  rw [Bool.not_eq_true', ← Bool.not_eq_true, List.any_eq_true]
  push_neg
  constructor
  · intro hno j hj1 hj2
    have hj : j ∈ List.range' i (cur - i) := by
      rw [List.mem_range'_1]; omega
    exact Bool.not_eq_true _ |>.mp (hno j hj)
  · intro hno j hj
    rw [List.mem_range'_1] at hj
    rw [hno j hj.1 (by omega)]
    simp

lemma is_in_jsdoc_go_iff (lines : List (List Char)) (cur : Nat) :
    ∀ m, m ≤ cur →
      (is_in_jsdoc_go lines cur m = true ↔
        ∃ i, i < m ∧ isOpenerLine (lines.getD i []) = true ∧
          (∀ k, i < k → k < m → benignLine (lines.getD k [])) ∧
          (∀ j, i ≤ j → j < cur → containsSub closeTok (lines.getD j []) = false)) := by
  intro m
  induction m with
  | zero => intro _; simp [is_in_jsdoc_go]
  | succ n ih =>
    intro hm
    have hn : n ≤ cur := Nat.le_of_succ_le hm
    by_cases hop : isOpenerLine (lines.getD n []) = true
    · rw [is_in_jsdoc_go, if_pos hop, close_scan_iff lines hn]
      constructor
      · intro h
        exact ⟨n, Nat.lt_succ_self n, hop, fun k hk1 hk2 => absurd hk2 (by omega), h⟩
      · rintro ⟨i, hi, hopi, hben, hnc⟩
        rcases Nat.lt_succ_iff_lt_or_eq.mp hi with hi' | rfl
        · exact absurd (hben n hi' (Nat.lt_succ_self n)) (opener_not_benign hop)
        · exact hnc
    · by_cases hstop : isStopperLine (lines.getD n []) = true
      · rw [is_in_jsdoc_go, if_neg hop, if_pos hstop]
        constructor
        · intro h; cases h
        · rintro ⟨i, hi, hopi, hben, _⟩
          rcases Nat.lt_succ_iff_lt_or_eq.mp hi with hi' | rfl
          · exact absurd (hben n hi' (Nat.lt_succ_self n)) (stopper_not_benign hstop)
          · exact absurd hopi hop
      · rw [is_in_jsdoc_go, if_neg hop, if_neg hstop, ih hn]
        have hbn : benignLine (lines.getD n []) :=
          benign_of_not_stopper (Bool.not_eq_true _ |>.mp hstop)
        constructor
        · rintro ⟨i, hi, hopi, hben, hnc⟩
          refine ⟨i, Nat.lt_succ_of_lt hi, hopi, fun k hk1 hk2 => ?_, hnc⟩
          by_cases hkn : k = n
          · exact hkn ▸ hbn
          · exact hben k hk1 (by omega)
        · rintro ⟨i, hi, hopi, hben, hnc⟩
          have hi' : i < n := by
            rcases Nat.lt_succ_iff_lt_or_eq.mp hi with h' | rfl
            · exact h'
            · exact absurd hopi hop
          exact ⟨i, hi', hopi, fun k hk1 hk2 => hben k hk1 (by omega), hnc⟩

/-- Claim C1: for a line not classified as comment by rule 1, the line is
classified as inside a documentation comment block exactly when a backward
scan finds a nearest preceding line whose stripped text begins with the
opener marker, no line from that opener up to (excluding) the current line
contains the close marker, and no non-comment, non-blank line sits between
the opener and the current line. -/
theorem is_in_jsdoc_characterization (lines : List (List Char)) (cur : Nat)
    (_hcur : cur < lines.length)
    (_hrule1 : is_comment_line (lines.getD cur []) = false) :
    is_in_jsdoc lines cur = true ↔ jsdocSpec lines cur :=
  is_in_jsdoc_go_iff lines cur cur (Nat.le_refl cur)

/-- Witness for C1 at a concrete file: an unterminated opener directly above
a code line puts that line inside the documentation block. -/
theorem is_in_jsdoc_characterization_witness :
    (1 : Nat) < ([("/** doc".toList), ("console.log(1)".toList)] : List (List Char)).length ∧
    is_comment_line (([("/** doc".toList), ("console.log(1)".toList)] : List (List Char)).getD 1 []) = false ∧
    (is_in_jsdoc [("/** doc".toList), ("console.log(1)".toList)] 1 = true ↔
      jsdocSpec [("/** doc".toList), ("console.log(1)".toList)] 1) :=
  ⟨by decide, by decide,
    is_in_jsdoc_characterization [("/** doc".toList), ("console.log(1)".toList)] 1
      (by decide) (by decide)⟩

/-! ### Claim C2: the pattern, and one match per qualifying line -/

/-- The declarative reading of the pattern of claim C2: the line contains,
anywhere, the literal `console.`, then exactly one of the method names, then
optional whitespace, then an opening parenthesis. -/
def consoleSpec (line : List Char) : Prop :=
  ∃ pre m ws post, m ∈ methods ∧ (∀ c ∈ ws, pySpace c = true) ∧
    line = pre ++ (consoleHead ++ (m ++ (ws ++ '(' :: post)))

lemma dropPre_eq_some : ∀ p s r : List Char, dropPre p s = some r ↔ s = p ++ r := by
  intro p
  induction p with
  | nil =>
    intro s r
    simp [dropPre]
  | cons a as ih =>
    intro s r
    cases s with
    | nil => simp [dropPre]
    | cons b bs =>
      by_cases hab : a = b
      · subst hab
        rw [dropPre, if_pos rfl, ih]
        simp
      · rw [dropPre, if_neg hab]
        simp [Ne.symm hab]

lemma matchWsParen_iff : ∀ s, matchWsParen s = true ↔
    ∃ ws post, (∀ c ∈ ws, pySpace c = true) ∧ s = ws ++ '(' :: post := by
  intro s
  induction s with
  | nil =>
    rw [matchWsParen]
    constructor
    · intro h; cases h
    · rintro ⟨ws, post, _, heq⟩
      cases ws <;> simp at heq
  | cons c rest ih =>
    rw [matchWsParen]
    by_cases hc : c = '('
    · subst hc
      rw [if_pos rfl]
      constructor
      · intro _; exact ⟨[], rest, by simp, rfl⟩
      · intro _; rfl
    · rw [if_neg hc]
      by_cases hs : pySpace c = true
      · rw [if_pos hs, ih]
        constructor
        · rintro ⟨ws, post, hws, rfl⟩
          refine ⟨c :: ws, post, ?_, rfl⟩
          intro x hx
          rcases List.mem_cons.mp hx with rfl | hx'
          · exact hs
          · exact hws x hx'
        · rintro ⟨ws, post, hws, heq⟩
          cases ws with
          | nil =>
            simp at heq
            exact absurd heq.1 hc
          | cons w ws' =>
            rw [List.cons_append] at heq
            injection heq with h1 h2
            exact ⟨ws', post, fun x hx => hws x (List.mem_cons_of_mem w hx), h2⟩
      · rw [if_neg hs]
        constructor
        · intro h; cases h
        · rintro ⟨ws, post, hws, heq⟩
          cases ws with
          | nil =>
            simp at heq
            exact absurd heq.1 hc
          | cons w ws' =>
            rw [List.cons_append] at heq
            injection heq with h1 _
            exact absurd (h1 ▸ hws w (List.mem_cons_self w ws')) hs

lemma matchConsoleAt_iff : ∀ s, matchConsoleAt s = true ↔
    ∃ m ws post, m ∈ methods ∧ (∀ c ∈ ws, pySpace c = true) ∧
      s = consoleHead ++ (m ++ (ws ++ '(' :: post)) := by
  intro s
  rw [matchConsoleAt]
  cases h : dropPre consoleHead s with
  | none =>
    constructor
    · intro hf; cases hf
    · rintro ⟨m, ws, post, _, _, rfl⟩
      have := (dropPre_eq_some consoleHead _ (m ++ (ws ++ '(' :: post))).mpr rfl
      rw [h] at this
      cases this
  | some r =>
    have hs : s = consoleHead ++ r := (dropPre_eq_some _ _ _).mp h
    subst hs
    rw [List.any_eq_true]
    constructor
    · rintro ⟨m, hm, hmatch⟩
      cases h2 : dropPre m r with
      | none => rw [h2] at hmatch; cases hmatch
      | some r2 =>
        rw [h2] at hmatch
        have hr : r = m ++ r2 := (dropPre_eq_some _ _ _).mp h2
        obtain ⟨ws, post, hws, rfl⟩ := (matchWsParen_iff r2).mp hmatch
        exact ⟨m, ws, post, hm, hws, by rw [hr]⟩
    · rintro ⟨m, ws, post, hm, hws, heq⟩
      have hr : r = m ++ (ws ++ '(' :: post) := List.append_cancel_left heq
      refine ⟨m, hm, ?_⟩
      rw [(dropPre_eq_some m r (ws ++ '(' :: post)).mpr hr]
      exact (matchWsParen_iff _).mpr ⟨ws, post, hws, rfl⟩

lemma console_search_iff : ∀ line, console_pattern_search line = true ↔ consoleSpec line := by
  intro line
  induction line with
  | nil =>
    rw [console_pattern_search]
    constructor
    · intro h; cases h
    · rintro ⟨pre, m, ws, post, _, _, heq⟩
      cases pre <;> simp [consoleHead] at heq
  | cons c rest ih =>
    rw [console_pattern_search, Bool.or_eq_true, matchConsoleAt_iff, ih]
    constructor
    · rintro (⟨m, ws, post, hm, hws, heq⟩ | ⟨pre, m, ws, post, hm, hws, heq⟩)
      · exact ⟨[], m, ws, post, hm, hws, by simpa using heq⟩
      · exact ⟨c :: pre, m, ws, post, hm, hws, by rw [List.cons_append, ← heq]⟩
    · rintro ⟨pre, m, ws, post, hm, hws, heq⟩
      cases pre with
      | nil =>
        left
        exact ⟨m, ws, post, hm, hws, by simpa using heq⟩
      | cons p pre' =>
        right
        rw [List.cons_append] at heq
        injection heq with h1 h2
        exact ⟨pre', m, ws, post, hm, hws, h2⟩

lemma scanStep_eq_some {lines : List (List Char)} {idx : Nat} {x : Nat × List Char} :
    scanStep lines idx = some x ↔
      is_comment_line (lines.getD idx []) = false ∧
      is_in_jsdoc lines idx = false ∧
      console_pattern_search (lines.getD idx []) = true ∧
      x = (idx + 1, pyRstrip (lines.getD idx [])) := by
  unfold scanStep
  by_cases h1 : is_comment_line (lines.getD idx []) = true
  · simp only [h1, if_true]
    simp [h1]
  · rw [Bool.not_eq_true] at h1
    by_cases h2 : is_in_jsdoc lines idx = true
    · simp only [h1, h2, Bool.false_eq_true, if_false, if_true]
      simp [h2]
    · rw [Bool.not_eq_true] at h2
      by_cases h3 : console_pattern_search (lines.getD idx []) = true
      · simp only [h1, h2, h3, Bool.false_eq_true, if_false, if_true]
        simp only [Option.some_inj]
        constructor
        · intro h; exact ⟨trivial, trivial, trivial, h.symm⟩
        · intro h; exact h.2.2.2.symm
      · rw [Bool.not_eq_true] at h3
        simp only [h1, h2, h3, Bool.false_eq_true, if_false]
        simp [h3]

lemma mem_scanLines {lines : List (List Char)} {x : Nat × List Char} :
    x ∈ scanLines lines ↔ ∃ idx, idx < lines.length ∧ scanStep lines idx = some x := by
  unfold scanLines
  rw [List.mem_filterMap]
  simp [List.mem_range]

lemma scanLines_pairwise_keys (lines : List (List Char)) :
    (scanLines lines).Pairwise fun a b => a.1 < b.1 := by
  unfold scanLines
  refine List.Pairwise.filterMap (scanStep lines) ?_ (List.pairwise_lt_range _)
  intro a b hab x hx y hy
  rw [Option.mem_def] at hx hy
  obtain ⟨_, _, _, rfl⟩ := scanStep_eq_some.mp hx
  obtain ⟨_, _, _, rfl⟩ := scanStep_eq_some.mp hy
  simpa using hab

/-- Claim C2: the pattern fires on a line exactly when the line contains,
anywhere, `console.` followed by one of the six method names, optional
whitespace and an opening parenthesis; and a non-comment, non-JSDoc line
containing such a substring produces exactly one Match, whatever the number
of occurrences in the line. -/
theorem console_pattern_correct :
    (∀ line : List Char, console_pattern_search line = true ↔ consoleSpec line) ∧
    (∀ (lines : List (List Char)) (i : Nat), i < lines.length →
      is_comment_line (lines.getD i []) = false →
      is_in_jsdoc lines i = false →
      consoleSpec (lines.getD i []) →
      ((scanLines lines).map Prod.fst).count (i + 1) = 1) := by
  refine ⟨console_search_iff, ?_⟩
  intro lines i hi hc hj hs
  have hmem : (i + 1, pyRstrip (lines.getD i [])) ∈ scanLines lines :=
    mem_scanLines.mpr ⟨i, hi, scanStep_eq_some.mpr ⟨hc, hj, (console_search_iff _).mpr hs, rfl⟩⟩
  have hkey : i + 1 ∈ (scanLines lines).map Prod.fst :=
    List.mem_map.mpr ⟨_, hmem, rfl⟩
  have hnd : ((scanLines lines).map Prod.fst).Nodup := by
    have hp : ((scanLines lines).map Prod.fst).Pairwise (· < ·) :=
      List.pairwise_map.mpr (scanLines_pairwise_keys lines)
    exact hp.imp Nat.ne_of_lt
  exact List.count_eq_one_of_mem hnd hkey

/-- Witness for C2 at a concrete file of one line `console.log(1)`. -/
theorem console_pattern_correct_witness :
    (0 : Nat) < ([("console.log(1)".toList)] : List (List Char)).length ∧
    is_comment_line (([("console.log(1)".toList)] : List (List Char)).getD 0 []) = false ∧
    is_in_jsdoc [("console.log(1)".toList)] 0 = false ∧
    ((scanLines [("console.log(1)".toList)]).map Prod.fst).count 1 = 1 :=
  ⟨by decide, by decide, by decide,
    console_pattern_correct.2 [("console.log(1)".toList)] 0 (by decide) (by decide) (by decide)
      ((console_pattern_correct.1 _).mp (by decide))⟩

/-! ### Claim C3: comment lines never produce a match -/

/-- Claim C3: a line classified as comment by rule 1 or by the doc-block
rule 2 never produces a Match, whatever its content; in particular the
one-line file consisting of a single-line JSDoc with both markers is
classified by rule 1 and yields zero matches. -/
theorem comment_lines_produce_no_match :
    (∀ (lines : List (List Char)) (i : Nat) (t : List Char),
      is_comment_line (lines.getD i []) = true ∨ is_in_jsdoc lines i = true →
      (i + 1, t) ∉ scanLines lines) ∧
    is_comment_line ("/** console.log(\"x\"); */".toList) = true ∧
    scanLines [("/** console.log(\"x\"); */".toList)] = [] := by
  refine ⟨?_, by decide, by decide⟩
  intro lines i t h hmem
  obtain ⟨idx, _, hstep⟩ := mem_scanLines.mp hmem
  obtain ⟨hc, hj, _, heq⟩ := scanStep_eq_some.mp hstep
  have hidx : idx = i := by
    have := congrArg Prod.fst heq
    simpa using this.symm
  subst hidx
  rcases h with h | h
  · rw [hc] at h; cases h
  · rw [hj] at h; cases h

/-- Witness for C3: the concrete single-line JSDoc file from the claim. -/
theorem comment_lines_produce_no_match_witness :
    is_comment_line ("/** console.log(\"x\"); */".toList) = true ∧
    ((1 : Nat), ("/** console.log(\"x\"); */".toList)) ∉
      scanLines [("/** console.log(\"x\"); */".toList)] :=
  ⟨by decide,
    comment_lines_produce_no_match.1 [("/** console.log(\"x\"); */".toList)] 0 _
      (Or.inl (by decide))⟩

/-! ### Claim C10: match numbering, recorded text, ordering -/

/-- Claim C10: every Match records the 1-based physical line number and the
line text with trailing whitespace removed and leading whitespace preserved
(the recorded text, appended to the removed trailing whitespace run, is the
original line); within one file the matches carry strictly increasing line
numbers. -/
theorem scan_matches_shape (lines : List (List Char)) :
    (∀ m ∈ scanLines lines, ∃ i, i < lines.length ∧ m.1 = i + 1 ∧
      m.2 = pyRstrip (lines.getD i [])) ∧
    (scanLines lines).Pairwise (fun a b => a.1 < b.1) ∧
    (∀ s : List Char,
      pyRstrip s ++ (s.reverse.takeWhile pySpace).reverse = s ∧
      ∀ c ∈ (s.reverse.takeWhile pySpace).reverse, pySpace c = true) := by
  refine ⟨?_, scanLines_pairwise_keys lines, ?_⟩
  · intro m hm
    obtain ⟨idx, hidx, hstep⟩ := mem_scanLines.mp hm
    obtain ⟨_, _, _, rfl⟩ := scanStep_eq_some.mp hstep
    exact ⟨idx, hidx, rfl, rfl⟩
  · intro s
    constructor
    · rw [pyRstrip, ← List.reverse_append, List.takeWhile_append_dropWhile,
        List.reverse_reverse]
    · intro c hc
      exact List.mem_takeWhile_imp (List.mem_reverse.mp hc)

/-- Witness for C10 at a file of one line with trailing whitespace. -/
theorem scan_matches_shape_witness :
    ((1 : Nat), ("console.log(1)".toList)) ∈ scanLines [("console.log(1) \n".toList)] ∧
    (∃ i, i < ([("console.log(1) \n".toList)] : List (List Char)).length ∧
      ((1 : Nat), ("console.log(1)".toList)).1 = i + 1 ∧
      ((1 : Nat), ("console.log(1)".toList)).2 =
        pyRstrip (([("console.log(1) \n".toList)] : List (List Char)).getD i [])) :=
  ⟨by decide,
    (scan_matches_shape [("console.log(1) \n".toList)]).1 _ (by decide)⟩

/-! ### Claim C4: per-file read failures are isolated -/

/-- Claim C4: a file that cannot be read yields a diagnostic naming the file
and the underlying cause, contributes an empty match list, and leaves the
diagnostics and report of every other file unchanged. -/
theorem read_failure_isolated (p msg : List Char) (l1 l2 : List FileEntry) :
    find_console_statements ⟨p, .error msg⟩ = ([errLine p msg], []) ∧
    errLine p msg = "Error reading ".toList ++ p ++ ": ".toList ++ msg ∧
    collectDiags (l1 ++ ⟨p, .error msg⟩ :: l2) =
      collectDiags l1 ++ errLine p msg :: collectDiags l2 ∧
    collectReport (l1 ++ ⟨p, .error msg⟩ :: l2) = collectReport l1 ++ collectReport l2 := by
  refine ⟨rfl, rfl, ?_, ?_⟩
  · simp [collectDiags, find_console_statements]
  · simp [collectReport, reportStep, find_console_statements]

/-! ### Claim C8: missing source directory -/

/-- Claim C8: when the `src` directory is absent, `main` prints the error
message and returns normally without scanning anything — the output is the
single message whatever files the walk would have produced, and `mainOutput`
is a total function (there is no failing path). -/
theorem missing_src_dir_aborts (files : List FileEntry) :
    mainOutput false files = [("Error: src/ directory not found".toList)] := rfl

/-! ### The path order: totality, transitivity, antisymmetry -/

lemma lexLe_total : ∀ a b : List Char, lexLe a b = true ∨ lexLe b a = true := by
  intro a
  induction a with
  | nil => intro b; left; rfl
  | cons x xs ih =>
    intro b
    cases b with
    | nil => right; rfl
    | cons y ys =>
      rcases lt_trichotomy x y with h | h | h
      · left; simp [lexLe, h]
      · subst h
        rcases ih ys with h' | h'
        · left; simpa [lexLe, lt_irrefl] using h'
        · right; simpa [lexLe, lt_irrefl] using h'
      · right; simp [lexLe, h]

lemma lexLe_trans : ∀ a b c : List Char,
    lexLe a b = true → lexLe b c = true → lexLe a c = true := by
  intro a
  induction a with
  | nil => intro b c _ _; rfl
  | cons x xs ih =>
    intro b c hab hbc
    cases b with
    | nil => simp [lexLe] at hab
    | cons y ys =>
      cases c with
      | nil => simp [lexLe] at hbc
      | cons z zs =>
        by_cases hxy : x < y
        · by_cases hyz : y < z
          · simp [lexLe, lt_trans hxy hyz]
          · by_cases hzy : z < y
            · simp [lexLe, hyz, hzy] at hbc
            · have : y = z := le_antisymm (le_of_not_lt hzy) (le_of_not_lt hyz)
              subst this
              simp [lexLe, hxy]
        · by_cases hyx : y < x
          · simp [lexLe, hxy, hyx] at hab
          · have : x = y := le_antisymm (le_of_not_lt hyx) (le_of_not_lt hxy)
            subst this
            rw [lexLe, if_neg (lt_irrefl x), if_neg (lt_irrefl x)] at hab
            by_cases hxz : x < z
            · simp [lexLe, hxz]
            · by_cases hzx : z < x
              · simp [lexLe, hxz, hzx] at hbc
              · have : x = z := le_antisymm (le_of_not_lt hzx) (le_of_not_lt hxz)
                subst this
                rw [lexLe, if_neg (lt_irrefl x), if_neg (lt_irrefl x)] at hbc ⊢
                exact ih ys zs hab hbc

lemma lexLe_antisymm : ∀ a b : List Char,
    lexLe a b = true → lexLe b a = true → a = b := by
  intro a
  induction a with
  | nil =>
    intro b _ hba
    cases b with
    | nil => rfl
    | cons y ys => simp [lexLe] at hba
  | cons x xs ih =>
    intro b hab hba
    cases b with
    | nil => simp [lexLe] at hab
    | cons y ys =>
      by_cases hxy : x < y
      · simp [lexLe, hxy, lt_asymm hxy] at hba
      · by_cases hyx : y < x
        · simp [lexLe, hxy, hyx] at hab
        · have hx : x = y := le_antisymm (le_of_not_lt hyx) (le_of_not_lt hxy)
          subst hx
          rw [lexLe, if_neg (lt_irrefl x), if_neg (lt_irrefl x)] at hab hba
          rw [ih ys hab hba]

instance : IsTotal FileEntry pathLeRel :=
  ⟨fun a b => lexLe_total a.path b.path⟩

instance : IsTrans FileEntry pathLeRel :=
  ⟨fun a b c => lexLe_trans a.path b.path c.path⟩

instance : IsTotal ReportEntry countGeRel :=
  ⟨fun a b => Nat.le_total b.2.length a.2.length⟩

instance : IsTrans ReportEntry countGeRel :=
  ⟨fun _ _ _ hab hbc => Nat.le_trans hbc hab⟩

/-! ### Claim C5: report ordering and tie-breaking -/

lemma filter_orderedInsert_count (c : Nat) (a : ReportEntry) :
    ∀ l : List ReportEntry,
      (List.orderedInsert countGeRel a l).filter (fun x => x.2.length == c) =
        ((a :: l).filter fun x => x.2.length == c) := by
  intro l
  induction l with
  | nil => rfl
  | cons b t ih =>
    rw [List.orderedInsert]
    by_cases hr : countGeRel a b
    · rw [if_pos hr]
    · rw [if_neg hr]
      have hlt : a.2.length < b.2.length := by
        simpa [countGeRel, Nat.not_le] using hr
      simp only [List.filter_cons, ih]
      by_cases hpa : (a.2.length == c) = true
      · have hpb : (b.2.length == c) = false := by
          have ha : a.2.length = c := beq_iff_eq.mp hpa
          simp only [beq_eq_false_iff_ne, ne_eq]
          omega
        simp [hpa, hpb]
      · rw [Bool.not_eq_true] at hpa
        cases hpb : (b.2.length == c) <;> simp [hpa, hpb]

lemma filter_insertionSort_count (c : Nat) :
    ∀ l : List ReportEntry,
      (List.insertionSort countGeRel l).filter (fun x => x.2.length == c) =
        (l.filter fun x => x.2.length == c) := by
  intro l
  induction l with
  | nil => rfl
  | cons a t ih =>
    rw [List.insertionSort, filter_orderedInsert_count, List.filter_cons,
      List.filter_cons, ih]

lemma reportStep_some_path {e : FileEntry} {x : ReportEntry}
    (h : reportStep e = some x) : x.1 = e.path := by
  by_cases hs : ((find_console_statements e).2).isEmpty = true
  · simp [reportStep, hs] at h
  · rw [Bool.not_eq_true] at hs
    simp [reportStep, hs] at h
    rw [← h]

lemma reportEntries_path_sorted (files : List FileEntry) :
    (reportEntries files).Pairwise fun a b => lexLe a.1 b.1 = true := by
  unfold reportEntries collectReport
  refine List.Pairwise.filterMap reportStep ?_
    (List.sorted_insertionSort pathLeRel files)
  intro a b hab x hx y hy
  rw [Option.mem_def] at hx hy
  rw [reportStep_some_path hx, reportStep_some_path hy]
  exact hab

/-- Claim C5: the printed report is sorted by descending match count (a file
with strictly more matches prints first); per count the entries keep the
order of `all_statements`, which itself lists files in the lexicographic
path order of the pre-sorted input list. -/
theorem report_order (files : List FileEntry) :
    (reportSorted files).Pairwise countGeRel ∧
    (∀ c : Nat, ((reportSorted files).filter fun x => x.2.length == c) =
      ((reportEntries files).filter fun x => x.2.length == c)) ∧
    (reportEntries files).Pairwise (fun a b => lexLe a.1 b.1 = true) :=
  ⟨List.sorted_insertionSort countGeRel _,
    fun c => filter_insertionSort_count c _,
    reportEntries_path_sorted files⟩

/-! ### Claim C6: truncation and per-entry formatting -/

/-- Claim C6: a reported file prints its header plus at most the first 10
match entries — entry `k` shows the 1-based line number right-aligned to
width 4 and the line truncated to its first 100 characters — and, when more
than 10 matches exist, one extra line reporting the count of the remainder;
so a file with 15 matches prints 1 + 10 + 1 lines. -/
theorem file_block_truncation (p : List Char) (stmts : List (Nat × List Char)) :
    (fileBlock p stmts).length =
      1 + min stmts.length 10 + (if 10 < stmts.length then 1 else 0) ∧
    (∀ k, k < min stmts.length 10 →
      (fileBlock p stmts).getD (k + 1) [] =
        "  ".toList ++ padLeft4 (natChars (stmts.getD k (0, [])).1) ++ ": ".toList ++
          ((stmts.getD k (0, [])).2.take 100)) ∧
    (10 < stmts.length →
      (fileBlock p stmts).getLast? = some (overflowLine stmts.length) ∧
      overflowLine stmts.length =
        "  ... and ".toList ++ natChars (stmts.length - 10) ++ " more".toList) := by
  refine ⟨?_, ?_, ?_⟩
  · by_cases h10 : 10 < stmts.length <;>
      simp [fileBlock, h10, List.length_append, List.length_take] <;> omega
  · intro k hk
    have hk10 : k < 10 := lt_of_lt_of_le hk (min_le_right _ _)
    have hklen : k < stmts.length := lt_of_lt_of_le hk (min_le_left _ _)
    rw [fileBlock, List.getD_cons_succ]
    rw [List.getD_append _ _ _ _ (by
      rw [List.length_map, List.length_take]
      omega)]
    rw [List.getD_eq_getElem?_getD, List.getElem?_map, List.getElem?_take_of_lt hk10,
      List.getElem?_eq_getElem hklen]
    rw [List.getD_eq_getElem _ _ hklen]
    rfl
  · intro h10
    refine ⟨?_, rfl⟩
    rw [fileBlock, if_pos h10, ← List.cons_append, List.getLast?_concat]

/-- Witness for C6: a file with 15 matches shows 12 printed lines, the first
entry formatted with the padded line number, and the overflow note `5 more`. -/
theorem file_block_truncation_witness :
    (0 : Nat) < min ((List.range 15).map fun j => (j + 1, ['x'])).length 10 ∧
    (10 : Nat) < ((List.range 15).map fun j => (j + 1, ['x'])).length ∧
    (fileBlock [] ((List.range 15).map fun j => (j + 1, ['x']))).length = 12 ∧
    (fileBlock [] ((List.range 15).map fun j => (j + 1, ['x']))).getD 1 [] =
      "     1: x".toList ∧
    (fileBlock [] ((List.range 15).map fun j => (j + 1, ['x']))).getLast? =
      some ("  ... and 5 more".toList) := by
  have h := file_block_truncation [] ((List.range 15).map fun j => (j + 1, ['x']))
  refine ⟨by decide, by decide, ?_, ?_, ?_⟩
  · rw [h.1]; decide
  · rw [h.2.1 0 (by decide)]; decide
  · rw [(h.2.2 (by decide)).1]; decide

/-! ### Claim C7: zero-match files never appear in the report -/

/-- Claim C7: a scanned file whose scan yields no matches gets no report
entry — its path appears neither in `all_statements` nor in the sorted
report, so it prints no block and contributes nothing to the totals. -/
theorem zero_match_files_absent (entries : List FileEntry) (p : List Char)
    (h : ∀ e ∈ entries, e.path = p → (find_console_statements e).2 = []) :
    p ∉ (collectReport entries).map Prod.fst ∧
    p ∉ (List.insertionSort countGeRel (collectReport entries)).map Prod.fst := by
  have h1 : p ∉ (collectReport entries).map Prod.fst := by
    intro hmem
    obtain ⟨x, hx, hfst⟩ := List.mem_map.mp hmem
    obtain ⟨e, he, hstep⟩ := List.mem_filterMap.mp hx
    by_cases hs : ((find_console_statements e).2).isEmpty = true
    · simp [reportStep, hs] at hstep
    · rw [Bool.not_eq_true] at hs
      simp [reportStep, hs] at hstep
      have hep : e.path = p := by rw [← hstep] at hfst; exact hfst
      rw [h e he hep] at hs
      simp at hs
  refine ⟨h1, fun hmem => h1 ?_⟩
  have hperm : List.Perm ((List.insertionSort countGeRel (collectReport entries)).map Prod.fst)
      ((collectReport entries).map Prod.fst) :=
    (List.perm_insertionSort countGeRel _).map Prod.fst
  exact hperm.subset hmem

/-- Witness for C7: a file whose only console statement sits in a comment is
absent from the report. -/
theorem zero_match_files_absent_witness :
    (∀ e ∈ ([⟨"src/a.ts".toList, .ok [("// console.log(1)\n".toList)]⟩] : List FileEntry),
      e.path = "src/a.ts".toList → (find_console_statements e).2 = []) ∧
    "src/a.ts".toList ∉
      (collectReport [⟨"src/a.ts".toList, .ok [("// console.log(1)\n".toList)]⟩]).map Prod.fst :=
  ⟨by decide,
    (zero_match_files_absent [⟨"src/a.ts".toList, .ok [("// console.log(1)\n".toList)]⟩]
      ("src/a.ts".toList) (by decide)).1⟩

/-! ### Claim C9: determinism of the report -/

lemma sortedEntries_sorted (files : List FileEntry) :
    (sortedEntries files).Pairwise pathLeRel :=
  List.sorted_insertionSort pathLeRel files

lemma eq_of_perm_sorted_paths :
    ∀ l1 l2 : List FileEntry, List.Perm l1 l2 → l1.Pairwise pathLeRel → l2.Pairwise pathLeRel →
      (l1.map FileEntry.path).Nodup → l1 = l2 := by
  intro l1
  induction l1 with
  | nil => intro l2 hp _ _ _; exact hp.nil_eq
  | cons a t1 ih =>
    intro l2 hp hs1 hs2 hnd
    cases l2 with
    | nil =>
      have := hp.length_eq
      simp at this
    | cons b t2 =>
      by_cases hab : a = b
      · subst hab
        have ht : List.Perm t1 t2 := hp.cons_inv
        have hnd' : (t1.map FileEntry.path).Nodup := by
          rw [List.map_cons, List.nodup_cons] at hnd
          exact hnd.2
        rw [ih t2 ht (List.pairwise_cons.mp hs1).2 (List.pairwise_cons.mp hs2).2 hnd']
      · exfalso
        have hamem : a ∈ b :: t2 := hp.subset (List.mem_cons_self a t1)
        have hat2 : a ∈ t2 := by
          rcases List.mem_cons.mp hamem with h' | h'
          · exact absurd h' hab
          · exact h'
        have hbmem : b ∈ a :: t1 := hp.symm.subset (List.mem_cons_self b t2)
        have hbt1 : b ∈ t1 := by
          rcases List.mem_cons.mp hbmem with h' | h'
          · exact absurd h'.symm hab
          · exact h'
        have h1 : pathLeRel a b := (List.pairwise_cons.mp hs1).1 b hbt1
        have h2 : pathLeRel b a := (List.pairwise_cons.mp hs2).1 a hat2
        have hpath : a.path = b.path := lexLe_antisymm _ _ h1 h2
        have hmemp : a.path ∈ t1.map FileEntry.path :=
          List.mem_map.mpr ⟨b, hbt1, hpath.symm⟩
        rw [List.map_cons, List.nodup_cons] at hnd
        exact hnd.1 hmemp

/-- Claim C9: the printed report is a deterministic function of the set of
file paths and contents — two walks enumerating the same files in any order
produce identical output, because the file list is sorted before scanning. -/
theorem scan_deterministic (l1 l2 : List FileEntry) (hperm : List.Perm l1 l2)
    (hnd : (l1.map FileEntry.path).Nodup) :
    mainOutput true l1 = mainOutput true l2 := by
  have hlen : l1.length = l2.length := hperm.length_eq
  have hsort : sortedEntries l1 = sortedEntries l2 := by
    refine eq_of_perm_sorted_paths _ _ ?_ (sortedEntries_sorted l1) (sortedEntries_sorted l2) ?_
    · exact (List.perm_insertionSort pathLeRel l1).trans
        (hperm.trans (List.perm_insertionSort pathLeRel l2).symm)
    · have hmp : List.Perm ((sortedEntries l1).map FileEntry.path) (l1.map FileEntry.path) :=
        (List.perm_insertionSort pathLeRel l1).map FileEntry.path
      exact hmp.nodup_iff.mpr hnd
  rw [mainOutput, mainOutput, if_pos rfl, if_pos rfl, hlen, hsort]

/-- Witness for C9: two enumeration orders of the same two files give the
same output. -/
theorem scan_deterministic_witness :
    (([⟨"src/a.ts".toList, .ok [("console.log(1)".toList)]⟩,
       ⟨"src/b.ts".toList, .error "boom".toList⟩] : List FileEntry).map FileEntry.path).Nodup ∧
    mainOutput true
        [⟨"src/a.ts".toList, .ok [("console.log(1)".toList)]⟩,
         ⟨"src/b.ts".toList, .error "boom".toList⟩] =
      mainOutput true
        [⟨"src/b.ts".toList, .error "boom".toList⟩,
         ⟨"src/a.ts".toList, .ok [("console.log(1)".toList)]⟩] :=
  ⟨by decide,
    scan_deterministic _ _ (List.Perm.swap _ _ _) (by decide)⟩

end ConsoleScan
